import Mathlib

/-!
Shallow embedding of the CSP crossword solver in `src/generate.py`
(class `CrosswordCreator`), together with proofs about the claims of the
specification.  Words are lists of characters; the Domain Store is a
function from variables to candidate-word lists; the mutable state of the
Python class is passed explicitly.
-/

namespace CrosswordGen

/-- Modelled from the spec: the direction of a word slot (ACROSS | DOWN).
The class `Variable` lives in `crossword.py`, which is not part of the
solver core sources; the spec (§3) describes it. -/
inductive Direction where
  | across
  | down
deriving DecidableEq, Repr

/-- Modelled from the spec: a word slot — origin cell (row `i`, column `j`),
direction, and required length; structural identity (§3). -/
structure Variable where
  i : Nat
  j : Nat
  dir : Direction
  length : Nat
deriving DecidableEq, Repr

/-- A candidate word, as a list of characters. -/
abbrev Word := List Char

/-- Modelled from the spec: the Puzzle Model collaborator (§2, §6): the set
of variables, the vocabulary, and the overlap lookup
`overlap(x, y) -> optional (index_in_x, index_in_y)`.  Sets are modelled as
lists. -/
structure Model where
  vars : List Variable
  words : List Word
  overlaps : Variable → Variable → Option (Nat × Nat)

/-- The Domain Store: each variable's current candidate-word list
(`self.domains`). -/
abbrev Domains := Variable → List Word

/-- Pointwise update of the Domain Store at one variable
(`self.domains[x] = ...`). -/
def updateDoms (doms : Domains) (x : Variable) (d : List Word) : Domains :=
  fun v => if v = x then d else doms v

/-- Modelled from the spec: `neighbors(v)` — the variables sharing a grid
cell with `v`, i.e. the other variables whose overlap with `v` is present
(§6, §3). -/
def neighbors (m : Model) (v : Variable) : List Variable :=
  m.vars.filter (fun u => decide (u ≠ v) && (m.overlaps v u).isSome)

/-- Embedding of `enforce_node_consistency`: remove from every variable's
domain the words whose length differs from the variable's length. -/
def enforceNodeConsistency (m : Model) (doms : Domains) : Domains :=
  fun v =>
    if v ∈ m.vars then (doms v).filter (fun w => decide (v.length = w.length))
    else doms v

/-- Embedding of `revise(x, y)`.  The Python builds the list `domain` of the
words of `domain(x)` that have at least one compatible word in `domain(y)`
at the overlap indices, assigns `self.domains[x] = domain`, and only then
returns `len(domain) != len(self.domains[x])` — a comparison of the new
domain against itself.  A missing overlap makes the Python subscript of
`None` raise; `revise` is only ever called on neighboring pairs, where the
overlap is present, and the `none` branch returns the store unchanged. -/
def revise (m : Model) (doms : Domains) (x y : Variable) : Domains × Bool :=
  match m.overlaps x y with
  | none => (doms, false)
  | some ov =>
    let domain := (doms x).filter (fun wx =>
      decide (((doms y).filter (fun wy => decide (wx.get? ov.1 = wy.get? ov.2))).length ≠ 0))
    let doms' := updateDoms doms x domain
    (doms', decide (domain.length ≠ (doms' x).length))

/-- The Boolean returned by `revise` is always `false`: the length
comparison is made against the store after the assignment, so it compares
the rebuilt domain with itself. -/
theorem revise_snd_false (m : Model) (doms : Domains) (x y : Variable) :
    (revise m doms x y).2 = false := by
  unfold revise
  cases m.overlaps x y with
  | none => rfl
  | some ov => simp [updateDoms]

/-- Variables other than `x` are untouched by `revise(x, y)`. -/
theorem revise_fst_ne (m : Model) (doms : Domains) (x y v : Variable)
    (h : v ≠ x) : (revise m doms x y).1 v = doms v := by
  unfold revise
  cases m.overlaps x y with
  | none => rfl
  | some ov => simp [updateDoms, h]

/-- Embedding of the worklist loop of `ac3`.  The Python `while` loop pops
the queue head, revises, and — when `revise` reports a change — either
fails on an empty domain or appends the arcs `(x, z)` for the neighbors `z`
of `x` passing the `z.i != y.i and z.j != y.j` guard.  Recursion is fuelled;
since `revise` never reports a change (`revise_snd_false`), the queue only
shrinks and fuel equal to the initial queue length is exact
(`ac3Loop_fuel_eq`). -/
def ac3Loop (m : Model) : Nat → List (Variable × Variable) → Domains → Domains × Bool
  | _, [], doms => (doms, true)
  | 0, _ :: _, doms => (doms, true)
  | fuel + 1, (x, y) :: rest, doms =>
    let doms' := (revise m doms x y).1
    if (revise m doms x y).2 = true then
      if (doms' x).length = 0 then (doms', false)
      else
        ac3Loop m fuel
          (rest ++ ((neighbors m x).filter
            (fun z => decide (z.i ≠ y.i) && decide (z.j ≠ y.j))).map (fun z => (x, z)))
          doms'
    else ac3Loop m fuel rest doms'

/-- Any fuel at least the queue length gives the same run as the exact
fuel, so the fuelled loop is the Python loop. -/
theorem ac3Loop_fuel_eq (m : Model) (fuel : Nat) :
    ∀ q : List (Variable × Variable), ∀ doms : Domains, q.length ≤ fuel →
      ac3Loop m fuel q doms = ac3Loop m q.length q doms := by
  induction fuel with
  | zero =>
    intro q doms h
    have : q = [] := List.eq_nil_of_length_eq_zero (Nat.le_zero.mp h)
    subst this
    rfl
  | succ n ih =>
    intro q doms h
    cases q with
    | nil => rfl
    | cons p rest =>
      obtain ⟨x, y⟩ := p
      simp only [ac3Loop, revise_snd_false]
      simp only [List.length_cons] at h
      have h' : rest.length ≤ n := Nat.lt_succ_iff.mp (Nat.lt_of_lt_of_le (Nat.lt_succ_self _) h)
      simp only [if_neg (by simp : ¬ (false = true))]
      exact ih rest _ h'

/-- The initial all-arcs worklist: every ordered pair `(x, y)` with `y` a
neighbor of `x`, in model order. -/
def initialArcs (m : Model) : List (Variable × Variable) :=
  (m.vars.map (fun x => (neighbors m x).map (fun y => (x, y)))).flatten

/-- Embedding of `ac3(arcs=None | arcs)`: seed the queue with all arcs or
with the given list, then run the worklist loop. -/
def ac3 (m : Model) (arcs : Option (List (Variable × Variable))) (doms : Domains) :
    Domains × Bool :=
  match arcs with
  | none => ac3Loop m (initialArcs m).length (initialArcs m) doms
  | some l => ac3Loop m l.length l doms

/-- An assignment: the Python dict from variables to words, modelled as an
association list in insertion order (keys are unique by construction:
`backtrack` only ever adds an unassigned variable). -/
abbrev Assignment := List (Variable × Word)

/-- Dictionary lookup `assignment[v]` / `v in assignment`, first binding
wins. -/
def lookupA (a : Assignment) (v : Variable) : Option Word :=
  match a with
  | [] => none
  | (u, w) :: rest => if u = v then some w else lookupA rest v

/-- Embedding of `assignment_complete`: every crossword variable has a
value. -/
def assignmentComplete (m : Model) (a : Assignment) : Bool :=
  m.vars.all (fun v => (lookupA a v).isSome)

/-- Embedding of `consistent`: for each assigned variable, the values are
pairwise distinct (`len(values) == len(set(values))`, modelled with
`dedup`), its word has the variable's length, and it agrees with every
assigned neighbor at the recorded overlap indices.  The Python guard
`assignment[neighbor] == None` (and the key lookup itself) is modelled by
skipping neighbors without a binding. -/
def consistent (m : Model) (a : Assignment) : Bool :=
  a.all (fun p =>
    match lookupA a p.1 with
    | none => true
    | some wv =>
      decide ((a.map Prod.snd).dedup.length = a.length) &&
      decide (p.1.length = wv.length) &&
      ((neighbors m p.1).all (fun nb =>
        match lookupA a nb with
        | none => true
        | some wn =>
          match m.overlaps p.1 nb with
          | none => true
          | some ov => decide (wv.get? ov.1 = wn.get? ov.2))))

/-- Embedding of the count computed by `order_domain_values` for one
candidate word `w` of `var`: over every unassigned neighbor, the number of
neighbor-domain words whose overlap character MATCHES `w` (`n += 1` when
`varWord[overlap[0]] == neighborWord[overlap[1]]`). -/
def conflictCount (m : Model) (doms : Domains) (v : Variable) (a : Assignment)
    (w : Word) : Nat :=
  ((neighbors m v).map (fun nb =>
    if (lookupA a nb).isNone then
      match m.overlaps v nb with
      | none => 0
      | some ov => ((doms nb).filter (fun wn => decide (w.get? ov.1 = wn.get? ov.2))).length
    else 0)).sum

/-- Stable insertion into a count-sorted list: a new pair goes before the
first strictly larger count, after equal ones. -/
def insertByCount (p : Word × Nat) : List (Word × Nat) → List (Word × Nat)
  | [] => [p]
  | q :: rest => if p.2 ≤ q.2 then p :: q :: rest else q :: insertByCount p rest

/-- Stable ascending sort by count (insertion sort), modelling Python's
stable `sorted(..., key=lambda item: item[1])`. -/
def sortByCount (l : List (Word × Nat)) : List (Word × Nat) :=
  l.foldr insertByCount []

/-- Embedding of `order_domain_values`: pair every candidate word of `var`
with its count, sort ascending by count (stable), and return the words.
The word domains carry no duplicate words, so the Python dict keyed by word
is the list of pairs. -/
def orderDomainValues (m : Model) (doms : Domains) (v : Variable) (a : Assignment) :
    List Word :=
  (sortByCount ((doms v).map (fun w => (w, conflictCount m doms v a w)))).map Prod.fst

/-- The minimum of a list of naturals, `none` on the empty list (where the
Python `min` raises). -/
def minNat? : List Nat → Option Nat
  | [] => none
  | x :: xs => some (xs.foldl Nat.min x)

/-- Embedding of the candidate computation of `select_unassigned_variable`:
the unassigned variables of minimal remaining-domain size, early-returned
as-is when only one variable is unassigned, otherwise narrowed to those of
MINIMAL neighbor count (`min(varDegree.values())` in the source).  The
Python then picks one of these by `random.choice`. -/
def selectCandidates (m : Model) (doms : Domains) (a : Assignment) : List Variable :=
  let untreated := m.vars.filter (fun v => (lookupA a v).isNone)
  match minNat? (untreated.map (fun v => (doms v).length)) with
  | none => []
  | some minSize =>
    let byMin := untreated.filter (fun v => decide ((doms v).length = minSize))
    if untreated.length = 1 then byMin
    else
      match minNat? (byMin.map (fun v => (neighbors m v).length)) with
      | none => []
      | some minDeg => byMin.filter (fun v => decide ((neighbors m v).length = minDeg))

/-- Embedding of `select_unassigned_variable`; the `random.choice` among
the tied candidates is modelled by a fixed representative (the head), and
the head of the empty candidate list — where the Python `min` or
`random.choice` would raise, never reached from `backtrack` — is `none`. -/
def selectUnassignedVariable (m : Model) (doms : Domains) (a : Assignment) :
    Option Variable :=
  (selectCandidates m doms a).head?

/-- Result of a `backtrack` call: the Domain Store it leaves behind, the
returned optional assignment, and — instrumentation for the control-flow
claims — the number of `backtrack` invocations the call performed
(itself included). -/
structure BTResult where
  doms : Domains
  result : Option Assignment
  calls : Nat

/-- Embedding of the `for value in self.order_domain_values(...)` loop of
`backtrack`: assign the value, run `ac3` on the arcs (selected, neighbor)
discarding its Boolean, recurse (`bt`), return the first success, and hand
the store left by a failed branch to the next candidate unchanged. -/
def tryValues (m : Model) (bt : Domains → Assignment → BTResult) (sel : Variable)
    (a : Assignment) : List Word → Domains → BTResult
  | [], doms => ⟨doms, none, 0⟩
  | w :: rest, doms =>
    let newA := a ++ [(sel, w)]
    let arcs := (neighbors m sel).map (fun nb => (sel, nb))
    let doms1 := (ac3 m (some arcs) doms).1
    let r := bt doms1 newA
    match r.result with
    | some res => ⟨r.doms, some res, r.calls⟩
    | none =>
      let r2 := tryValues m bt sel a rest r.doms
      ⟨r2.doms, r2.result, r.calls + r2.calls⟩

/-- Embedding of `backtrack`.  Recursion depth is bounded by the number of
variables, modelled by fuel (any fuel beyond the number of unassigned
variables is enough, since each recursive call assigns one more variable).
On a complete assignment the consistency check decides; otherwise the
candidates of the selected variable are tried in heuristic order, and on
overall failure only `self.domains[selectedVar]` is written back
(`savedDomain`), at the very end. -/
def backtrack (m : Model) : Nat → Domains → Assignment → BTResult
  | 0, doms, _ => ⟨doms, none, 1⟩
  | fuel + 1, doms, a =>
    if assignmentComplete m a then
      if consistent m a then ⟨doms, some a, 1⟩ else ⟨doms, none, 1⟩
    else
      match selectUnassignedVariable m doms a with
      | none => ⟨doms, none, 1⟩
      | some sel =>
        let savedDomain := doms sel
        let r := tryValues m (backtrack m fuel) sel a (orderDomainValues m doms sel a) doms
        match r.result with
        | some res => ⟨r.doms, some res, r.calls + 1⟩
        | none => ⟨updateDoms r.doms sel savedDomain, none, r.calls + 1⟩

/-- Embedding of `solve`: initialize the Domain Store from the vocabulary,
enforce node consistency, run global `ac3` DISCARDING its Boolean result —
as the source does — and call `backtrack` with the empty assignment. -/
def solveRun (m : Model) (fuel : Nat) : BTResult :=
  let d0 : Domains := fun _ => m.words
  let d1 := enforceNodeConsistency m d0
  let d2 := (ac3 m none d1).1
  backtrack m fuel d2 []

/-- The value `solve` returns: the optional assignment. -/
def solve (m : Model) (fuel : Nat) : Option Assignment :=
  (solveRun m fuel).result

/-- The arc-consistency property the spec's invariant 2 states: for every
neighboring pair and every word left in `domain(x)`, some word of
`domain(y)` agrees at the overlap indices. -/
def arcConsistent (m : Model) (doms : Domains) : Bool :=
  m.vars.all (fun x => (neighbors m x).all (fun y =>
    match m.overlaps x y with
    | none => true
    | some ov => (doms x).all (fun wx =>
        (doms y).any (fun wy => decide (wx.get? ov.1 = wy.get? ov.2)))))

/-- Two crossing slots used by several counterexamples: an ACROSS slot and
a DOWN slot of length 2 sharing their first cell. -/
def vX : Variable := ⟨0, 0, Direction.across, 2⟩

/-- The DOWN slot crossing `vX` at its first cell. -/
def vY : Variable := ⟨0, 0, Direction.down, 2⟩

/-- Overlap table for `M1`: `vX` and `vY` share character 0 of each. -/
def ovM1 : Variable → Variable → Option (Nat × Nat) := fun u v =>
  if u = vX ∧ v = vY then some (0, 0)
  else if u = vY ∧ v = vX then some (0, 0)
  else none

/-- A two-variable model whose two domains are mutually incompatible at
the shared cell. -/
def M1 : Model := ⟨[vX, vY], [['a','b'], ['c','d']], ovM1⟩

/-- Domain Store for `M1`: `vX ↦ {"ab"}`, `vY ↦ {"cd"}`; the words disagree
at the shared first character. -/
def D1 : Domains := fun v => if v = vX then [['a', 'b']] else [['c', 'd']]

/-- First slot of the three-variable model `M2`. -/
def vA : Variable := ⟨1, 0, Direction.across, 2⟩

/-- Second slot of `M2`. -/
def vB : Variable := ⟨2, 0, Direction.across, 2⟩

/-- Third slot of `M2`, crossing both `vA` and `vB`. -/
def vC : Variable := ⟨0, 1, Direction.down, 2⟩

/-- Overlap table for `M2`: `vA[0] = vC[0]` and `vB[0] = vC[1]`. -/
def ovM2 : Variable → Variable → Option (Nat × Nat) := fun u v =>
  if u = vA ∧ v = vC then some (0, 0)
  else if u = vC ∧ v = vA then some (0, 0)
  else if u = vB ∧ v = vC then some (0, 1)
  else if u = vC ∧ v = vB then some (1, 0)
  else none

/-- Three slots: `vA` and `vB` each cross `vC` and nothing else. -/
def M2 : Model := ⟨[vA, vB, vC], [['x', 'z'], ['q', 'z'], ['x', 'y']], ovM2⟩

/-- Domain Store for `M2`: `vA ↦ {"xz"}` (supported by `"xy"` in `vC`),
`vB ↦ {"qz"}` (unsupported: no `vC` word has second character `q`),
`vC ↦ {"xy"}`. -/
def D2 : Domains := fun v =>
  if v = vA then [['x', 'z']]
  else if v = vB then [['q', 'z']]
  else [['x', 'y']]

/-- Slot of `M4` of length 2. -/
def vP : Variable := ⟨0, 0, Direction.across, 2⟩

/-- Slot of `M4` of length 3, crossing `vP`. -/
def vQ : Variable := ⟨0, 0, Direction.down, 3⟩

/-- Overlap table for `M4`: shared first cell. -/
def ovM4 : Variable → Variable → Option (Nat × Nat) := fun u v =>
  if u = vP ∧ v = vQ then some (0, 0)
  else if u = vQ ∧ v = vP then some (0, 0)
  else none

/-- A model whose pruning phase empties a domain: after node consistency
`vP ↦ {"ab"}` and `vQ ↦ {"xyz"}`, and the single overlap `a ≠ x` empties
`vP` during global arc consistency. -/
def M4 : Model := ⟨[vP, vQ], [['a', 'b'], ['x', 'y', 'z']], ovM4⟩

/-- The `M6` slot whose domain the processed arc reduces. -/
def vX6 : Variable := ⟨0, 0, Direction.across, 2⟩

/-- The `M6` slot on the processed arc `(vX6, vY6)`. -/
def vY6 : Variable := ⟨0, 3, Direction.down, 2⟩

/-- The other neighbor of `vX6` in `M6`. -/
def vZ6 : Variable := ⟨1, 1, Direction.down, 2⟩

/-- Overlap table for `M6`: `vX6[0] = vY6[0]` and `vX6[1] = vZ6[0]`. -/
def ovM6 : Variable → Variable → Option (Nat × Nat) := fun u v =>
  if u = vX6 ∧ v = vY6 then some (0, 0)
  else if u = vY6 ∧ v = vX6 then some (0, 0)
  else if u = vX6 ∧ v = vZ6 then some (1, 0)
  else if u = vZ6 ∧ v = vX6 then some (0, 1)
  else none

/-- A model where revising `(vX6, vY6)` strictly shrinks `vX6`'s domain to
a non-empty set, and where the re-enqueue of `(vX6, vZ6)` the spec demands
would prune further. -/
def M6 : Model := ⟨[vX6, vY6, vZ6], [['a', 'b'], ['c', 'd'], ['a', 'a'], ['q', 'q']], ovM6⟩

/-- Domain Store for `M6`: `vX6 ↦ {"ab", "cd"}`, `vY6 ↦ {"aa"}`,
`vZ6 ↦ {"qq"}`. -/
def D6 : Domains := fun v =>
  if v = vX6 then [['a', 'b'], ['c', 'd']]
  else if v = vY6 then [['a', 'a']]
  else [['q', 'q']]

/-- The high-degree slot of `M8`. -/
def vA8 : Variable := ⟨0, 0, Direction.across, 2⟩

/-- A degree-one slot of `M8`, tied with `vA8` on domain size. -/
def vB8 : Variable := ⟨0, 0, Direction.down, 2⟩

/-- The slot of `M8` with the larger domain. -/
def vC8 : Variable := ⟨1, 1, Direction.down, 2⟩

/-- Overlap table for `M8`: `vA8` crosses both `vB8` and `vC8`. -/
def ovM8 : Variable → Variable → Option (Nat × Nat) := fun u v =>
  if u = vA8 ∧ v = vB8 then some (0, 0)
  else if u = vB8 ∧ v = vA8 then some (0, 0)
  else if u = vA8 ∧ v = vC8 then some (1, 0)
  else if u = vC8 ∧ v = vA8 then some (0, 1)
  else none

/-- A model with `vA8` of degree 2 and `vB8`, `vC8` of degree 1. -/
def M8 : Model :=
  ⟨[vA8, vB8, vC8], [['a', 'a'], ['b', 'b'], ['c', 'a'], ['c', 'b']], ovM8⟩

/-- Domain Store for `M8`: `vA8` and `vB8` are tied on the minimal domain
size 1; `vC8` has 2 candidates. -/
def D8 : Domains := fun v =>
  if v = vA8 then [['a', 'a']]
  else if v = vB8 then [['b', 'b']]
  else [['c', 'a'], ['c', 'b']]

/-- The slot of `M9` whose candidate values are ordered. -/
def vX9 : Variable := ⟨0, 0, Direction.across, 2⟩

/-- The single (unassigned) neighbor of `vX9` in `M9`. -/
def vY9 : Variable := ⟨0, 0, Direction.down, 2⟩

/-- Overlap table for `M9`: shared first cell. -/
def ovM9 : Variable → Variable → Option (Nat × Nat) := fun u v =>
  if u = vX9 ∧ v = vY9 then some (0, 0)
  else if u = vY9 ∧ v = vX9 then some (0, 0)
  else none

/-- A model where the two candidates of `vX9` rule out 0 resp. 3 of the
neighbor's words. -/
def M9 : Model :=
  ⟨[vX9, vY9], [['a', 'b'], ['z', 'b'], ['a', 'c'], ['a', 'd'], ['a', 'e']], ovM9⟩

/-- Domain Store for `M9`: `vX9 ↦ {"ab", "zb"}`, `vY9 ↦ {"ac","ad","ae"}`;
all three neighbor words match `"ab"` and none matches `"zb"`. -/
def D9 : Domains := fun v =>
  if v = vX9 then [['a', 'b'], ['z', 'b']]
  else [['a', 'c'], ['a', 'd'], ['a', 'e']]

/-- The conflict count as the spec's §4.4 words it: for candidate `w` of
`v`, the sum over every unassigned neighbor of the number of
neighbor-domain words INCOMPATIBLE with `w` at the shared overlap. -/
def specConflictCount (m : Model) (doms : Domains) (v : Variable) (a : Assignment)
    (w : Word) : Nat :=
  ((neighbors m v).map (fun nb =>
    if (lookupA a nb).isNone then
      match m.overlaps v nb with
      | none => 0
      | some ov => ((doms nb).filter (fun wn => decide (¬ w.get? ov.1 = wn.get? ov.2))).length
    else 0)).sum

/-- A successful lookup names a binding of the list. -/
theorem lookupA_some_mem {a : Assignment} {v : Variable} {w : Word}
    (h : lookupA a v = some w) : (v, w) ∈ a := by
  induction a with
  | nil => simp [lookupA] at h
  | cons p rest ih =>
    obtain ⟨u, wu⟩ := p
    by_cases hu : u = v
    · subst hu
      simp only [lookupA, if_true, eq_self_iff_true, Option.some.injEq] at h
      subst h
      exact List.mem_cons_self _ _
    · simp only [lookupA, if_neg hu] at h
      exact List.mem_cons_of_mem _ (ih h)

/-- A bound variable looks up successfully. -/
theorem lookupA_isSome_of_mem {a : Assignment} {v : Variable} {w : Word}
    (h : (v, w) ∈ a) : (lookupA a v).isSome := by
  induction a with
  | nil => simp at h
  | cons p rest ih =>
    obtain ⟨u, wu⟩ := p
    by_cases hu : u = v
    · simp [lookupA, if_pos hu]
    · rcases List.mem_cons.mp h with h1 | h1
      · exact absurd (congrArg Prod.fst h1).symm hu
      · simpa [lookupA, if_neg hu] using ih h1

/-- Reading `assignment_complete m a = True`: every model variable is
bound. -/
theorem assignmentComplete_isSome {m : Model} {a : Assignment}
    (h : assignmentComplete m a = true) :
    ∀ v ∈ m.vars, (lookupA a v).isSome := by
  intro v hv
  exact List.all_eq_true.mp h v hv

/-- Reading `consistent m a = True`, first conjunct: the assigned words are
pairwise distinct. -/
theorem consistent_distinct {m : Model} {a : Assignment}
    (hc : consistent m a = true) : (a.map Prod.snd).Nodup := by
  cases ha : a with
  | nil => simp
  | cons p rest =>
    subst ha
    obtain ⟨v, w⟩ := p
    have hmem : (v, w) ∈ (v, w) :: rest := List.mem_cons_self _ _
    obtain ⟨wv, hwv⟩ := Option.isSome_iff_exists.mp (lookupA_isSome_of_mem hmem)
    have ht := List.all_eq_true.mp hc (v, w) hmem
    simp only [hwv, Bool.and_eq_true, decide_eq_true_eq] at ht
    have hlen : ((((v, w) :: rest).map Prod.snd).dedup).length =
        (((v, w) :: rest).map Prod.snd).length := by
      rw [ht.1.1]
      simp
    have hded := List.Sublist.eq_of_length (List.dedup_sublist _) hlen
    exact List.dedup_eq_self.mp hded

/-- Reading `consistent m a = True`, second conjunct: every binding's word
has the variable's required length. -/
theorem consistent_lengths {m : Model} {a : Assignment}
    (hc : consistent m a = true) :
    ∀ v w, lookupA a v = some w → v.length = w.length := by
  intro v w hvw
  have ht := List.all_eq_true.mp hc (v, w) (lookupA_some_mem hvw)
  simp only [hvw, Bool.and_eq_true, decide_eq_true_eq] at ht
  exact ht.1.2

/-- Reading `consistent m a = True`, third conjunct: every bound
neighboring pair agrees at its recorded overlap indices. -/
theorem consistent_overlaps {m : Model} {a : Assignment}
    (hc : consistent m a = true) :
    ∀ x y ov wx wy, y ∈ neighbors m x → m.overlaps x y = some ov →
      lookupA a x = some wx → lookupA a y = some wy →
      wx.get? ov.1 = wy.get? ov.2 := by
  intro x y ov wx wy hy hov hx hylk
  have ht := List.all_eq_true.mp hc (x, wx) (lookupA_some_mem hx)
  simp only [hx, Bool.and_eq_true, decide_eq_true_eq] at ht
  have hnb := List.all_eq_true.mp ht.2 y hy
  simp only [hylk, hov, decide_eq_true_eq] at hnb
  exact hnb

/-- Any assignment a successful `tryValues` run returns was returned by a
call of the recursion step it was given. -/
theorem tryValues_some {m : Model} {bt : Domains → Assignment → BTResult}
    {sel : Variable} {a : Assignment} :
    ∀ (vs : List Word) (d : Domains) (res : Assignment),
      (tryValues m bt sel a vs d).result = some res →
      ∃ d' a', (bt d' a').result = some res := by
  intro vs
  induction vs with
  | nil =>
    intro d res h
    simp [tryValues] at h
  | cons w rest ih =>
    intro d res h
    simp only [tryValues] at h
    cases hr : (bt (ac3 m (some ((neighbors m sel).map fun nb => (sel, nb))) d).1
        (a ++ [(sel, w)])).result with
    | some r2 =>
      simp only [hr] at h
      exact ⟨(ac3 m (some ((neighbors m sel).map fun nb => (sel, nb))) d).1,
        a ++ [(sel, w)], by rw [hr]; exact h⟩
    | none =>
      simp only [hr] at h
      exact ih _ res h

/-- Every assignment `backtrack` returns passed the completeness and the
consistency check of its base case. -/
theorem backtrack_some_sound {m : Model} :
    ∀ (fuel : Nat) (d : Domains) (a res : Assignment),
      (backtrack m fuel d a).result = some res →
      assignmentComplete m res = true ∧ consistent m res = true := by
  intro fuel
  induction fuel with
  | zero =>
    intro d a res h
    simp [backtrack] at h
  | succ n ih =>
    intro d a res h
    simp only [backtrack] at h
    by_cases hcomp : assignmentComplete m a = true
    · rw [if_pos hcomp] at h
      by_cases hcons : consistent m a = true
      · rw [if_pos hcons] at h
        simp only [Option.some.injEq] at h
        subst h
        exact ⟨hcomp, hcons⟩
      · rw [if_neg hcons] at h
        simp at h
    · rw [if_neg hcomp] at h
      cases hsel : selectUnassignedVariable m d a with
      | none =>
        rw [hsel] at h
        simp at h
      | some sel =>
        rw [hsel] at h
        cases htr : (tryValues m (backtrack m n) sel a
            (orderDomainValues m d sel a) d).result with
        | none =>
          simp only [htr] at h
          simp at h
        | some r2 =>
          simp only [htr, Option.some.injEq] at h
          subst h
          obtain ⟨d', a', hba⟩ := tryValues_some _ _ _ htr
          exact ih d' a' r2 hba

/-- C3: any assignment a `backtrack` call returns (hence any assignment
`solve` returns) is complete — every model variable is bound — and
consistent: the assigned words are pairwise distinct, each word has its
variable's required length, and every bound neighboring pair agrees at its
recorded overlap indices. -/
theorem claim_C3 (m : Model) (fuel : Nat) (d : Domains) (a res : Assignment)
    (h : (backtrack m fuel d a).result = some res) :
    (∀ v ∈ m.vars, (lookupA res v).isSome) ∧
    (res.map Prod.snd).Nodup ∧
    (∀ v w, lookupA res v = some w → v.length = w.length) ∧
    (∀ x y ov wx wy, y ∈ neighbors m x → m.overlaps x y = some ov →
      lookupA res x = some wx → lookupA res y = some wy →
      wx.get? ov.1 = wy.get? ov.2) := by
  obtain ⟨hcomp, hcons⟩ := backtrack_some_sound fuel d a res h
  exact ⟨assignmentComplete_isSome hcomp, consistent_distinct hcons,
    consistent_lengths hcons, consistent_overlaps hcons⟩

/-- The single slot of the satisfiable witness model `MW`. -/
def vW : Variable := ⟨0, 0, Direction.across, 1⟩

/-- A one-variable model with vocabulary `{"a"}` and no overlaps; its
search succeeds immediately. -/
def MW : Model := ⟨[vW], [['a']], fun _ _ => none⟩

/-- Domain Store for `MW`. -/
def DW : Domains := fun _ => [['a']]

/-- Witness for C3: on `MW` the search returns the concrete assignment
`{vW ↦ "a"}`, and the theorem yields its completeness and consistency. -/
theorem claim_C3_witness :
    (∀ v ∈ MW.vars, (lookupA [(vW, ['a'])] v).isSome) ∧
    (([(vW, ['a'])] : Assignment).map Prod.snd).Nodup ∧
    (∀ v w, lookupA [(vW, ['a'])] v = some w → v.length = w.length) ∧
    (∀ x y ov wx wy, y ∈ neighbors MW x → MW.overlaps x y = some ov →
      lookupA [(vW, ['a'])] x = some wx → lookupA [(vW, ['a'])] y = some wy →
      wx.get? ov.1 = wy.get? ov.2) :=
  claim_C3 MW 2 DW [] [(vW, ['a'])] (by decide)

/-- C10: with any positive recursion budget, `solve` on a model with zero
variables returns the empty assignment as a `some` success value (distinct
from the `none` no-solution signal), and any `some` value `solve` returns
is a complete mapping — failure is only ever reported as `none`, never as
an empty or otherwise incomplete mapping. -/
theorem claim_C10 (m : Model) (fuel : Nat) (hf : 0 < fuel) :
    (m.vars = [] → solve m fuel = some []) ∧
    (∀ a, solve m fuel = some a → ∀ v ∈ m.vars, (lookupA a v).isSome) := by
  constructor
  · intro hvars
    obtain ⟨k, rfl⟩ : ∃ k, fuel = k + 1 := ⟨fuel - 1, (Nat.succ_pred_eq_of_pos hf).symm⟩
    have hcomp : assignmentComplete m [] = true := by
      simp [assignmentComplete, hvars]
    have hcons : consistent m [] = true := rfl
    simp [solve, solveRun, backtrack, hcomp, hcons]
  · intro a ha
    exact assignmentComplete_isSome (backtrack_some_sound fuel _ [] a ha).1

/-- The zero-variable model. -/
def M0 : Model := ⟨[], [], fun _ _ => none⟩

/-- Witness for C10 at the zero-variable model and budget 1: `solve`
returns `some []`. -/
theorem claim_C10_witness :
    (M0.vars = [] → solve M0 1 = some []) ∧
    (∀ a, solve M0 1 = some a → ∀ v ∈ M0.vars, (lookupA a v).isSome) :=
  claim_C10 M0 1 (by decide)

/-- The worklist loop never touches the domain of a variable that is not
the first component of any queued arc: revision writes only first
components, and every arc it appends has the popped arc's first component
again as its first component. -/
theorem ac3Loop_frame (m : Model) :
    ∀ (fuel : Nat) (q : List (Variable × Variable)) (d : Domains) (v : Variable),
      (∀ p ∈ q, p.1 ≠ v) → (ac3Loop m fuel q d).1 v = d v := by
  intro fuel
  induction fuel with
  | zero =>
    intro q d v _
    cases q <;> rfl
  | succ n ih =>
    intro q d v hq
    cases q with
    | nil => rfl
    | cons p rest =>
      obtain ⟨x, y⟩ := p
      have hx : x ≠ v := hq (x, y) (List.mem_cons_self _ _)
      simp only [ac3Loop, revise_snd_false, Bool.false_eq_true, if_false]
      rw [ih rest _ v (fun p hp => hq p (List.mem_cons_of_mem _ hp))]
      exact revise_fst_ne m d x y v (Ne.symm hx)

/-- `ac3` called on an explicit arc list leaves every variable that is not
a first component of one of those arcs untouched. -/
theorem ac3_some_frame (m : Model) (arcs : List (Variable × Variable)) (d : Domains)
    (v : Variable) (h : ∀ p ∈ arcs, p.1 ≠ v) : (ac3 m (some arcs) d).1 v = d v :=
  ac3Loop_frame m _ _ _ _ h

/-- If every branch of the recursion step restores the store on failure,
a failed `tryValues` run leaves every variable other than the selected one
untouched: the only propagation it performs is `ac3` on arcs whose first
components all equal the selected variable. -/
theorem tryValues_frame {m : Model} {bt : Domains → Assignment → BTResult}
    {sel : Variable} {a : Assignment}
    (hbt : ∀ d' a', (bt d' a').result = none → (bt d' a').doms = d') :
    ∀ (vs : List Word) (d : Domains),
      (tryValues m bt sel a vs d).result = none →
      ∀ v, v ≠ sel → (tryValues m bt sel a vs d).doms v = d v := by
  intro vs
  induction vs with
  | nil =>
    intro d _ v _
    rfl
  | cons w rest ih =>
    intro d hnone v hv
    simp only [tryValues] at hnone ⊢
    cases hr : (bt (ac3 m (some ((neighbors m sel).map fun nb => (sel, nb))) d).1
        (a ++ [(sel, w)])).result with
    | some r2 =>
      simp only [hr] at hnone
      simp at hnone
    | none =>
      simp only [hr] at hnone ⊢
      have hstep : (bt (ac3 m (some ((neighbors m sel).map fun nb => (sel, nb))) d).1
          (a ++ [(sel, w)])).doms = (ac3 m (some ((neighbors m sel).map fun nb => (sel, nb))) d).1 :=
        hbt _ _ hr
      rw [ih _ hnone v hv, hstep]
      exact ac3_some_frame m _ d v (by
        intro p hp
        obtain ⟨nb, _, rfl⟩ := List.mem_map.mp hp
        exact fun hc => hv hc.symm)

/-- C7 (as amended): every `backtrack` call that returns failure leaves the
Domain Store exactly as it was on entry.  Only `self.domains[selectedVar]`
is saved and written back, but propagation inside `backtrack` only ever
prunes the selected variable's domain (the arcs handed to `ac3` all have
the selected variable as first component, and so do any arcs the loop could
append), and failed recursive calls restore their own stores by
induction. -/
theorem claim_C7 (m : Model) :
    ∀ (fuel : Nat) (d : Domains) (a : Assignment),
      (backtrack m fuel d a).result = none → (backtrack m fuel d a).doms = d := by
  intro fuel
  induction fuel with
  | zero =>
    intro d a _
    rfl
  | succ n ih =>
    intro d a hnone
    simp only [backtrack] at hnone ⊢
    by_cases hcomp : assignmentComplete m a = true
    · rw [if_pos hcomp] at hnone ⊢
      by_cases hcons : consistent m a = true
      · rw [if_pos hcons] at hnone
        simp at hnone
      · rw [if_neg hcons]
    · rw [if_neg hcomp] at hnone ⊢
      cases hsel : selectUnassignedVariable m d a with
      | none => rfl
      | some sel =>
        rw [hsel] at hnone
        cases htr : (tryValues m (backtrack m n) sel a
            (orderDomainValues m d sel a) d).result with
        | some r2 =>
          simp only [htr] at hnone
          exact Option.noConfusion hnone
        | none =>
          simp only [htr]
          funext v
          by_cases hv : v = sel
          · subst hv
            simp [updateDoms]
          · simp only [updateDoms, if_neg hv]
            exact tryValues_frame (fun d' a' => ih d' a') _ _ htr v hv

/-- Witness for C7 (as amended): on `M1`/`D1` the whole search fails, and
the store it leaves is exactly the entry store. -/
theorem claim_C7_witness : (backtrack M1 3 D1 []).doms = D1 :=
  claim_C7 M1 3 D1 [] (by decide)

/-- Counterexample to C7 as stated: on `M9`/`D9`, the candidate values of
`vX9` are tried in the order `["zb", "ab"]`; the first candidate's
propagation (`ac3` on the arc `(vX9, vY9)`, exactly the store `tryValues`
hands to the recursion) prunes `domain(vX9)` to `{"ab"}`, the recursion
fails, and — by the very recursion of `tryValues` — the next candidate
`"ab"` is tried with that store, NOT with the step-1 snapshot
`{"ab","zb"}`: nothing is restored between candidate values. -/
theorem claim_C7_counterexample :
    orderDomainValues M9 D9 vX9 [] = [['z', 'b'], ['a', 'b']] ∧
    D9 vX9 = [['a', 'b'], ['z', 'b']] ∧
    (ac3 M9 (some [(vX9, vY9)]) D9).1 vX9 = [['a', 'b']] ∧
    ((neighbors M9 vX9).map fun nb => (vX9, nb)) = [(vX9, vY9)] ∧
    (backtrack M9 3 (ac3 M9 (some [(vX9, vY9)]) D9).1 [(vX9, ['z', 'b'])]).result = none ∧
    (backtrack M9 3 (ac3 M9 (some [(vX9, vY9)]) D9).1 [(vX9, ['z', 'b'])]).doms vX9
      = [['a', 'b']] := by decide

/-- C1: `revise(vX, vY)` on `M1`/`D1` removes the unsupported word `"ab"`,
so `domain(vX)` changes from `{"ab"}` to `∅`, yet the call returns `False`:
the Boolean compares the rebuilt domain against the already-updated store,
so it never reports a change.  This contradicts the claim (and the
function's own docstring) that the result is `True` exactly when
`domain(x)` was changed. -/
theorem claim_C1 :
    D1 vX = [['a', 'b']] ∧
    (revise M1 D1 vX vY).1 vX = [] ∧
    (revise M1 D1 vX vY).2 = false := by decide

/-- C2: on `M2`/`D2`, global `ac3` returns `True` (success), but the final
Domain Store is not arc consistent: `vA` keeps the word `"xz"` while the
domain of its neighbor `vC` ends up empty, so `"xz"` has no compatible
word at the overlap.  The single pass without re-enqueueing (a consequence
of `revise` always returning `False`) does not reach the fixed point. -/
theorem claim_C2 :
    (ac3 M2 none D2).2 = true ∧
    arcConsistent M2 (ac3 M2 none D2).1 = false ∧
    (ac3 M2 none D2).1 vA = [['x', 'z']] ∧
    (ac3 M2 none D2).1 vC = [] := by decide

/-- C4: on `M4`, node consistency followed by global arc consistency
empties the domain of `vP`, yet `solve` still enters backtracking search:
the source discards the Boolean of `self.ac3()` (which is `true` anyway)
and unconditionally calls `self.backtrack(dict())` — the call count of the
run is positive.  The claim that `solve` returns no-solution without
entering backtracking is violated; the final result is still `None`. -/
theorem claim_C4 :
    (ac3 M4 none (enforceNodeConsistency M4 (fun _ => M4.words))).1 vP = [] ∧
    (ac3 M4 none (enforceNodeConsistency M4 (fun _ => M4.words))).2 = true ∧
    (solveRun M4 3).result = none ∧
    1 ≤ (solveRun M4 3).calls := by decide

/-- C5: on `M1`/`D1`, propagation empties both domains, yet `ac3` keeps
draining the queue and returns `True`: the empty-domain check sits inside
the `if self.revise(x, y)` branch, and `revise` never returns `True`.  The
claim that `ac3` returns `False` exactly when a domain empties fails. -/
theorem claim_C5 :
    (ac3 M1 none D1).2 = true ∧
    (ac3 M1 none D1).1 vX = [] ∧
    (ac3 M1 none D1).1 vY = [] := by decide

/-- C6: on `M6`/`D6`, processing the arc `(vX6, vY6)` reduces
`domain(vX6)` from `{"ab","cd"}` to the non-empty `{"ab"}`, and `vZ6` is a
neighbor of `vX6` other than `vY6`; the claim demands that `(vX6, vZ6)` be
re-enqueued.  It is not: `revise` returns `False`, so the enqueueing branch
never runs, and `ac3` on the queue `[(vX6, vY6)]` terminates with
`domain(vX6) = {"ab"}` — although revising `(vX6, vZ6)` would have emptied
it, which the final store shows did not happen. -/
theorem claim_C6 :
    vZ6 ∈ neighbors M6 vX6 ∧
    vZ6 ≠ vY6 ∧
    D6 vX6 = [['a', 'b'], ['c', 'd']] ∧
    (revise M6 D6 vX6 vY6).1 vX6 = [['a', 'b']] ∧
    (revise M6 D6 vX6 vY6).2 = false ∧
    (ac3 M6 (some [(vX6, vY6)]) D6).1 vX6 = [['a', 'b']] ∧
    (ac3 M6 (some [(vX6, vY6)]) D6).2 = true ∧
    (revise M6 (revise M6 D6 vX6 vY6).1 vX6 vZ6).1 vX6 = [] := by decide

/-- C8: on `M8`/`D8` with nothing assigned, `vA8` and `vB8` are tied on the
minimal remaining-domain size 1, `vA8` has 2 neighbors and `vB8` only 1 —
the claim demands a variable of LARGEST neighbor count among the tied ones,
i.e. `vA8`.  The source computes `min(varDegree.values())`, so the
candidate list it hands to `random.choice` is exactly `[vB8]` and the
selection is `vB8`. -/
theorem claim_C8 :
    (lookupA ([] : Assignment) vA8).isNone = true ∧
    (D8 vA8).length = 1 ∧
    (D8 vB8).length = 1 ∧
    (D8 vC8).length = 2 ∧
    (neighbors M8 vA8).length = 2 ∧
    (neighbors M8 vB8).length = 1 ∧
    selectCandidates M8 D8 [] = [vB8] ∧
    selectUnassignedVariable M8 D8 [] = some vB8 := by decide

/-- C9: on `M9`/`D9`, the candidate `"zb"` of `vX9` rules out 3 words of
the unassigned neighbor `vY9` and `"ab"` rules out 0, so the claimed
ascending order by ruled-out count is `["ab", "zb"]`.  The source counts
MATCHING neighbor words instead and sorts ascending by that, returning
`["zb", "ab"]` — the most constraining value first. -/
theorem claim_C9 :
    orderDomainValues M9 D9 vX9 [] = [['z', 'b'], ['a', 'b']] ∧
    specConflictCount M9 D9 vX9 [] ['z', 'b'] = 3 ∧
    specConflictCount M9 D9 vX9 [] ['a', 'b'] = 0 := by decide

end CrosswordGen
